import Mathlib

/-!
Shallow embedding of the binary decoders of `survey_anim.py` (pko-tools):

* `parse_sceneobjinfo_bin` — the fixed-record object-catalog decoder;
* `parse_obj_file`         — the map placement-index decoder;
* `parse_lmo_animations`   — the LMO geometry-container / animation-size-table
  decoder.

A buffer is a `List Nat` of octets.  Every `struct.unpack_from` of the Python
source is modelled by a checked read returning `Option` (Python raises
`struct.error` when the read would overrun the buffer; `none` models that
exception).  Each decoder therefore returns `Option r`: `none` means the
Python function raises, `some r` means it returns `r`.
-/

set_option maxRecDepth 2000000

set_option maxHeartbeats 2000000

namespace Survey

/-- Byte access: file bytes are octets, so the model normalises each entry
with `% 256` (on a real byte sequence this is the identity). -/
def byteAt (data : List Nat) (i : Nat) : Nat :=
  data.getD i 0 % 256

/-- Unsigned little-endian 32-bit value at `off` (total; used in statements
and, guarded by an explicit bounds test, in the checked reads below). -/
def u32 (data : List Nat) (off : Nat) : Nat :=
  byteAt data off + byteAt data (off + 1) * 256 +
    byteAt data (off + 2) * 65536 + byteAt data (off + 3) * 16777216

/-- Unsigned little-endian 16-bit value at `off`. -/
def u16 (data : List Nat) (off : Nat) : Nat :=
  byteAt data off + byteAt data (off + 1) * 256

/-- Checked read modelling `struct.unpack_from("<I", data, off)`:
fails (exception) iff the four bytes do not fit in the buffer. -/
def u32le (data : List Nat) (off : Nat) : Option Nat :=
  if off + 4 ≤ data.length then some (u32 data off) else none

/-- Checked read modelling `struct.unpack_from("<i", data, off)` (signed). -/
def i32le (data : List Nat) (off : Nat) : Option Int :=
  if off + 4 ≤ data.length then
    some (if u32 data off < 2147483648 then (u32 data off : Int)
          else (u32 data off : Int) - 4294967296)
  else none

/-- Checked read modelling `struct.unpack_from("<h", data, off)` (signed 16-bit). -/
def i16le (data : List Nat) (off : Nat) : Option Int :=
  if off + 2 ≤ data.length then
    some (if u16 data off < 32768 then (u16 data off : Int)
          else (u16 data off : Int) - 65536)
  else none

/-- Checked block read of `n` consecutive u32 values, modelling the `n`
individual `unpack_from("<I", data, off + k*4)` calls of a size-table scan:
for `n ≥ 1` the single bound `off + n*4 ≤ length` is exactly the conjunction
of the per-call bounds. -/
def readU32s (data : List Nat) (off n : Nat) : Option (List Nat) :=
  if off + n * 4 ≤ data.length then
    some ((List.range n).map fun k => u32 data (off + k * 4))
  else none

/-! ### Object catalog decoder (`parse_sceneobjinfo_bin`, lines 41–82)

The Python function builds a `dict` keyed by `obj_id`.  A CPython `dict`
assignment overwrites the value of an existing key in place and appends a
fresh key at the end; `dictInsert`/`dictGet` model exactly that. -/

/-- CPython dict assignment `m[k] = v` on an association list with unique keys. -/
def dictInsert {α : Type} (m : List (Nat × α)) (k : Nat) (v : α) : List (Nat × α) :=
  if m.any (fun p => p.1 == k) then
    m.map (fun p => if p.1 == k then (k, v) else p)
  else m ++ [(k, v)]

/-- CPython dict lookup `m[k]` (as an `Option`). -/
def dictGet {α : Type} (m : List (Nat × α)) (k : Nat) : Option α :=
  (m.find? (fun p => p.1 == k)).map Prod.snd

/-- Python `bytes.find(b"\x00")` truncation `name_bytes[:end]` — keep the
bytes before the first zero byte (everything when no zero occurs). -/
def truncAtNul (l : List Nat) : List Nat :=
  l.takeWhile (fun b => b ≠ 0)

/-- Codepoints stripped by Python `str.strip()` (the Unicode whitespace set
used by `str.isspace`). -/
def pyIsSpace (c : Nat) : Bool :=
  c ∈ [9, 10, 11, 12, 13, 28, 29, 30, 31, 32, 133, 160, 5760,
       8192, 8193, 8194, 8195, 8196, 8197, 8198, 8199, 8200, 8201, 8202,
       8232, 8233, 8239, 8287, 12288]

/-- Python `str.strip()`: drop leading and trailing whitespace codepoints. -/
def pyStrip (l : List Nat) : List Nat :=
  ((l.dropWhile pyIsSpace).reverse.dropWhile pyIsSpace).reverse

/-- Python `str.lower()` on a codepoint.  The source only ever lowercases
asset filenames; the ASCII case mapping is modelled exactly and non-ASCII
codepoints are kept unchanged (the full Unicode table is not reproduced;
no claim distinguishes names beyond equality and emptiness, and both sides
of every theorem use this same mapping). -/
def pyLowerChar (c : Nat) : Nat :=
  if 65 ≤ c ∧ c ≤ 90 then c + 32 else c

/-- Python `str.lower()` on a codepoint list. -/
def pyLower (l : List Nat) : List Nat :=
  l.map pyLowerChar

/-- UTF-8 decoding with `errors="replace"` (fuelled; the fuel is always the
byte count, and each step consumes at least one byte).  Invalid bytes and
truncated or ill-formed sequences produce U+FFFD (65533) and resume at the
first unconsumed byte, as CPython does. -/
def utf8DecodeAux : Nat → List Nat → List Nat
  | 0, _ => []
  | _, [] => []
  | fuel + 1, b :: rest =>
    if b < 128 then b :: utf8DecodeAux fuel rest
    else if b < 194 then 65533 :: utf8DecodeAux fuel rest
    else if b < 224 then
      match rest with
      | c :: rest2 =>
        if 128 ≤ c ∧ c < 192 then
          ((b - 192) * 64 + (c - 128)) :: utf8DecodeAux fuel rest2
        else 65533 :: utf8DecodeAux fuel rest
      | [] => [65533]
    else if b < 240 then
      match rest with
      | c :: rest2 =>
        if (if b = 224 then 160 ≤ c ∧ c < 192
            else if b = 237 then 128 ≤ c ∧ c < 160
            else 128 ≤ c ∧ c < 192) then
          match rest2 with
          | d :: rest3 =>
            if 128 ≤ d ∧ d < 192 then
              ((b - 224) * 4096 + (c - 128) * 64 + (d - 128)) :: utf8DecodeAux fuel rest3
            else 65533 :: utf8DecodeAux fuel rest2
          | [] => [65533]
        else 65533 :: utf8DecodeAux fuel rest
      | [] => [65533]
    else if b < 245 then
      match rest with
      | c :: rest2 =>
        if (if b = 240 then 144 ≤ c ∧ c < 192
            else if b = 244 then 128 ≤ c ∧ c < 144
            else 128 ≤ c ∧ c < 192) then
          match rest2 with
          | d :: rest3 =>
            if 128 ≤ d ∧ d < 192 then
              match rest3 with
              | e :: rest4 =>
                if 128 ≤ e ∧ e < 192 then
                  ((b - 240) * 262144 + (c - 128) * 4096 + (d - 128) * 64 + (e - 128)) ::
                    utf8DecodeAux fuel rest4
                else 65533 :: utf8DecodeAux fuel rest3
              | [] => [65533]
            else 65533 :: utf8DecodeAux fuel rest2
          | [] => [65533]
        else 65533 :: utf8DecodeAux fuel rest
      | [] => [65533]
    else 65533 :: utf8DecodeAux fuel rest

/-- Python `bytes.decode("utf-8", errors="replace")`, as codepoints. -/
def utf8DecodeReplace (l : List Nat) : List Nat :=
  utf8DecodeAux l.length l

/-- Name normalisation of one record: slice `chunk[8:8+72]`, truncate at the
first NUL, decode UTF-8 with replacement, strip, lowercase (lines 73–77). -/
def sceneName (chunk : List Nat) : List Nat :=
  pyLower (pyStrip (utf8DecodeReplace (truncAtNul ((chunk.drop 8).take 72))))

/-- Record loop of `parse_sceneobjinfo_bin` (lines 58–80).  `fuel` is the
number of records still to process (`entry_count - i`), `i` the current
record index, `acc` the dict built so far.  The bounds test mirrors the
`break` of line 60-61; the two `unpack_from` calls on the record slice can
raise (`none`) when the record is narrower than their fixed field offsets. -/
def sceneLoop (data : List Nat) (entry_size : Nat) :
    Nat → Nat → List (Nat × List Nat) → Option (List (Nat × List Nat))
  | 0, _, acc => some acc
  | fuel + 1, i, acc =>
    let offset := i * entry_size
    if offset + entry_size > data.length then some acc
    else
      let chunk := (data.drop offset).take entry_size
      (i32le chunk 0).bind fun b_exist =>
        if b_exist = 0 then sceneLoop data entry_size fuel (i + 1) acc
        else
          (u32le chunk 100).bind fun obj_id =>
            let filename := sceneName chunk
            if filename = [] then sceneLoop data entry_size fuel (i + 1) acc
            else sceneLoop data entry_size fuel (i + 1) (dictInsert acc obj_id filename)

/-- Embedding of `parse_sceneobjinfo_bin` (lines 41–82).  The result dict
maps `obj_id` to the normalised filename (as codepoints). -/
def parse_sceneobjinfo_bin (data : List Nat) : Option (List (Nat × List Nat)) :=
  if data.length < 4 then some []
  else
    (u32le data 0).bind fun entry_size =>
      if entry_size = 0 then some []
      else
        let rest := data.drop 4
        sceneLoop rest entry_size (rest.length / entry_size) 0 []

/-- Assignment sequence of the catalog decoder: the same record loop, but
recording every `result[obj_id] = filename` assignment in order instead of
folding it into the dict.  Used to state the last-wins property. -/
def sceneAssignLoop (data : List Nat) (entry_size : Nat) :
    Nat → Nat → Option (List (Nat × List Nat))
  | 0, _ => some []
  | fuel + 1, i =>
    let offset := i * entry_size
    if offset + entry_size > data.length then some []
    else
      let chunk := (data.drop offset).take entry_size
      (i32le chunk 0).bind fun b_exist =>
        if b_exist = 0 then sceneAssignLoop data entry_size fuel (i + 1)
        else
          (u32le chunk 100).bind fun obj_id =>
            let filename := sceneName chunk
            if filename = [] then sceneAssignLoop data entry_size fuel (i + 1)
            else
              (sceneAssignLoop data entry_size fuel (i + 1)).map
                fun as => (obj_id, filename) :: as

/-- Assignment sequence of `parse_sceneobjinfo_bin` for a whole buffer. -/
def sceneAssignments (data : List Nat) : Option (List (Nat × List Nat)) :=
  if data.length < 4 then some []
  else
    (u32le data 0).bind fun entry_size =>
      if entry_size = 0 then some []
      else
        let rest := data.drop 4
        sceneAssignLoop rest entry_size (rest.length / entry_size) 0

/-! ### Placement index decoder (`parse_obj_file`, lines 89–141)

The Python function accumulates a `set` of `(obj_type, obj_id)` pairs; the
model uses a `Finset (Nat × Nat)` (the returned `list(placements)` is that
set in unspecified order, so the set itself is the decoder's result). -/

/-- Decode of the 16-bit packed placement field (lines 135–137):
`obj_type = (raw & 0xFFFF) >> 14`, `obj_id = (raw & 0xFFFF) & 0x3FFF`,
where `raw` is the signed 16-bit value and Python's `& 0xFFFF` on an `int`
is reduction mod 2^16. -/
def splitPackedId (raw : Int) : Nat × Nat :=
  let v : Nat := (raw % 65536).toNat
  (v >>> 14, v &&& 16383)

/-- Inner placement-slot loop of one section (lines 131–139).  `offset` is
the section's (positive) start, `j` the slot index, `fuel` the remaining
slot count, `acc` the placement set built so far.  The bounds test mirrors
the `break` of lines 133–134. -/
def objSlotLoop (data : List Nat) (offset : Int) :
    Nat → Nat → Finset (Nat × Nat) → Option (Finset (Nat × Nat))
  | 0, _, acc => some acc
  | fuel + 1, j, acc =>
    let entry_off : Int := offset + j * 20
    if entry_off + 20 > (data.length : Int) then some acc
    else
      (i16le data entry_off.toNat).bind fun raw =>
        let p := splitPackedId raw
        if 0 < p.2 ∧ p.1 ≤ 1 then
          objSlotLoop data offset fuel (j + 1) (insert p acc)
        else
          objSlotLoop data offset fuel (j + 1) acc

/-- Section loop (lines 125–139): sections with non-positive count or offset
contribute nothing; otherwise the slot loop runs with `count` slots. -/
def objSectionLoop (data : List Nat) :
    List (Int × Int) → Finset (Nat × Nat) → Option (Finset (Nat × Nat))
  | [], acc => some acc
  | (off, cnt) :: rest, acc =>
    if cnt ≤ 0 ∨ off ≤ 0 then objSectionLoop data rest acc
    else
      (objSlotLoop data off cnt.toNat 0 acc).bind fun acc2 =>
        objSectionLoop data rest acc2

/-- Section index read (lines 116–121): per section `s`, the pair
`(offset, count)` of signed 32-bit values at `44 + s*8` and `44 + s*8 + 4`. -/
def objSections (data : List Nat) : Nat → Nat → Option (List (Int × Int))
  | 0, _ => some []
  | fuel + 1, s =>
    (i32le data (44 + s * 8)).bind fun off =>
      (i32le data (44 + s * 8 + 4)).bind fun cnt =>
        (objSections data fuel (s + 1)).map fun rest => (off, cnt) :: rest

/-- Embedding of `parse_obj_file` (lines 89–141). -/
def parse_obj_file (data : List Nat) : Option (Finset (Nat × Nat)) :=
  if data.length < 44 then some ∅
  else
    (i32le data 16).bind fun version =>
      if version ≠ 600 then some ∅
      else
        (i32le data 24).bind fun section_cnt_x =>
          (i32le data 28).bind fun section_cnt_y =>
            let section_cnt : Int := section_cnt_x * section_cnt_y
            if (44 : Int) + section_cnt * 8 > (data.length : Int) then some ∅
            else
              (objSections data section_cnt.toNat 0).bind fun secs =>
                objSectionLoop data secs ∅

/-- Occurrence sequence of one section's slot loop: every kept
`(obj_type, obj_id)` pair in slot order, before set-deduplication. -/
def objSlotOcc (data : List Nat) (offset : Int) :
    Nat → Nat → Option (List (Nat × Nat))
  | 0, _ => some []
  | fuel + 1, j =>
    let entry_off : Int := offset + j * 20
    if entry_off + 20 > (data.length : Int) then some []
    else
      (i16le data entry_off.toNat).bind fun raw =>
        (objSlotOcc data offset fuel (j + 1)).map fun rest =>
          let p := splitPackedId raw
          if 0 < p.2 ∧ p.1 ≤ 1 then p :: rest else rest

/-- Occurrence sequence over a list of sections (concatenated in order). -/
def objSectionOcc (data : List Nat) : List (Int × Int) → Option (List (Nat × Nat))
  | [] => some []
  | (off, cnt) :: rest =>
    if cnt ≤ 0 ∨ off ≤ 0 then objSectionOcc data rest
    else
      (objSlotOcc data off cnt.toNat 0).bind fun occ1 =>
        (objSectionOcc data rest).map fun occ2 => occ1 ++ occ2

/-- Occurrence sequence of a whole map buffer: every kept placement
occurrence that the decoder's loops visit, in visiting order. -/
def objOccurrences (data : List Nat) : Option (List (Nat × Nat)) :=
  if data.length < 44 then some []
  else
    (i32le data 16).bind fun version =>
      if version ≠ 600 then some []
      else
        (i32le data 24).bind fun section_cnt_x =>
          (i32le data 28).bind fun section_cnt_y =>
            let section_cnt : Int := section_cnt_x * section_cnt_y
            if (44 : Int) + section_cnt * 8 > (data.length : Int) then some []
            else
              (objSections data section_cnt.toNat 0).bind fun secs =>
                objSectionOcc data secs

/-! ### LMO container / animation-size-table decoder
(`parse_lmo_animations`, lines 148–265) -/

/-- Object type tag for geometry entries (line 34). -/
def OBJ_TYPE_GEOMETRY : Nat := 1

/-- Parsed animation info for one geometry object (class `AnimInfo`,
lines 148–156). -/
structure AnimInfo where
  bone_size : Nat
  mat_size : Nat
  mtlopac_sizes : List (Nat × Nat)
  texuv_sizes : List (Nat × Nat × Nat)
  teximg_sizes : List (Nat × Nat × Nat)
deriving DecidableEq, Repr

/-- Animation header entry count selected from the LMO version
(lines 180–191): 146 DWORDs iff `lmo_version >= 0x1005`, else 130. -/
def animEntries (v : Nat) : Nat :=
  if 4101 ≤ v then 146 else 130

/-- Whether the header shape has the 16-slot mtlopac (opacity) block
(`has_mtlopac`, lines 184 and 189). -/
def lmoHasOpacity (v : Nat) : Bool :=
  decide (4101 ≤ v)

/-- Opacity subset count of the header shape (`mtlopac_count`,
lines 185 and 190). -/
def lmoOpacityCount (v : Nat) : Nat :=
  if 4101 ≤ v then 16 else 0

/-- Byte width of the animation header table (`header_bytes = n_entries * 4`,
line 192). -/
def lmoHdrBytes (v : Nat) : Nat :=
  animEntries v * 4

/-- Nonzero entries of a flat u32 list with their indices (the
`if val > 0: ... append((s, val))` filter of lines 230–233). -/
def keepPosIdx (vals : List Nat) : List (Nat × Nat) :=
  vals.enum.filterMap fun p => if 0 < p.2 then some (p.1, p.2) else none

/-- Nonzero entries of a 16×4 grid read as a flat u32 list, with their
`(subset, stage)` indices: flat index `k = s*4 + t` visits the grid in the
same `for s: for t:` order as lines 237–249, and `s = k / 4`, `t = k % 4`. -/
def keepPosGrid (vals : List Nat) : List (Nat × Nat × Nat) :=
  vals.enum.filterMap fun p => if 0 < p.2 then some (p.1 / 4, p.1 % 4, p.2) else none

/-- Total of all sizes recorded in an `AnimInfo` (lines 252–255). -/
def animTotal (info : AnimInfo) : Nat :=
  info.bone_size + info.mat_size +
    (info.mtlopac_sizes.map Prod.snd).sum +
    (info.texuv_sizes.map fun x => x.2.2).sum +
    (info.teximg_sizes.map fun x => x.2.2).sum

/-- Read of the animation size-array (lines 221–249), starting at the
already-bounds-checked `anim_offset`: `bone_size` and `mat_size`, then the
optional 16-slot mtlopac block, then the two 16×4 grids. -/
def readAnimInfo (data : List Nat) (hasM : Bool) (mCnt : Nat) (anim_offset : Nat) :
    Option AnimInfo :=
  (u32le data anim_offset).bind fun bone_size =>
    (u32le data (anim_offset + 4)).bind fun mat_size =>
      let off2 := anim_offset + 8
      (if hasM then
          (readU32s data off2 mCnt).map fun vals => (keepPosIdx vals, off2 + mCnt * 4)
        else some ([], off2)).bind fun mo =>
        (readU32s data mo.2 64).bind fun uvVals =>
          (readU32s data (mo.2 + 256) 64).map fun imgVals =>
            ⟨bone_size, mat_size, mo.1, keepPosGrid uvVals, keepPosGrid imgVals⟩

/-- Decode of one geometry object given its directory address (lines
203–263): preamble bounds test, size quad at `addr + 100`, animation header
fit test, size-array read, exact-total validation (lines 251–259), and the
emission condition of line 262.  The inner `Option` distinguishes "object
skipped" (`none`) from "object reported" (`some (i, info)`). -/
def decodeLmoGeometry (data : List Nat) (hdrBytes : Nat) (hasM : Bool) (mCnt : Nat)
    (i addr : Nat) : Option (Option (Nat × AnimInfo)) :=
  if addr + 116 > data.length then some none
  else
    let sizes_offset := addr + 100
    if sizes_offset + 16 > data.length then some none
    else
      (u32le data sizes_offset).bind fun mtl_size =>
        (u32le data (sizes_offset + 4)).bind fun mesh_size =>
          (u32le data (sizes_offset + 8)).bind fun helper_size =>
            (u32le data (sizes_offset + 12)).bind fun anim_size =>
              if anim_size = 0 then some none
              else
                let anim_offset := addr + 116 + mtl_size + mesh_size + helper_size
                if anim_offset + hdrBytes > data.length then some none
                else
                  (readAnimInfo data hasM mCnt anim_offset).bind fun info =>
                    if hdrBytes + animTotal info ≠ anim_size then some none
                    else if info.texuv_sizes ≠ [] ∨ info.teximg_sizes ≠ [] ∨
                        info.mtlopac_sizes ≠ [] then
                      some (some (i, info))
                    else some none

/-- Decode of one directory entry and its geometry object (lines 196–263,
one iteration of the `for i in range(obj_num)` loop, after the line 197
bounds test).  Outer `Option` is the exception layer (a read overrunning the
buffer). -/
def decodeLmoObject (data : List Nat) (hdrBytes : Nat) (hasM : Bool) (mCnt : Nat)
    (i : Nat) : Option (Option (Nat × AnimInfo)) :=
  let tbl_off := 8 + i * 12
  (u32le data tbl_off).bind fun typ =>
    (u32le data (tbl_off + 4)).bind fun addr =>
      (u32le data (tbl_off + 8)).bind fun _declared_size =>
        if typ ≠ OBJ_TYPE_GEOMETRY then some none
        else decodeLmoGeometry data hdrBytes hasM mCnt i addr

/-- Directory loop of `parse_lmo_animations` (lines 195–263).  `fuel` is the
remaining object count, `i` the current index; the bounds test mirrors the
`break` of lines 197–198. -/
def lmoLoop (data : List Nat) (hdrBytes : Nat) (hasM : Bool) (mCnt : Nat) :
    Nat → Nat → Option (List (Nat × AnimInfo))
  | 0, _ => some []
  | fuel + 1, i =>
    if 8 + i * 12 + 12 > data.length then some []
    else
      (decodeLmoObject data hdrBytes hasM mCnt i).bind fun r =>
        (lmoLoop data hdrBytes hasM mCnt fuel (i + 1)).map fun rest =>
          match r with
          | some x => x :: rest
          | none => rest

/-- Embedding of `parse_lmo_animations` (lines 159–265). -/
def parse_lmo_animations (data : List Nat) : Option (List (Nat × AnimInfo)) :=
  if data.length < 8 then some []
  else
    (u32le data 0).bind fun lmo_version =>
      (u32le data 4).bind fun obj_num =>
        if lmo_version = 0 then some []
        else if 500 < obj_num then some []
        else
          lmoLoop data (lmoHdrBytes lmo_version) (lmoHasOpacity lmo_version)
            (lmoOpacityCount lmo_version) obj_num 0

/-- Variant of `decodeLmoObject` that does not read the directory entry's
`declared_size` field at all (the source binds it at line 200 and never uses
it).  Used to state that the parsed value cannot influence the result. -/
def decodeLmoObjectNS (data : List Nat) (hdrBytes : Nat) (hasM : Bool) (mCnt : Nat)
    (i : Nat) : Option (Option (Nat × AnimInfo)) :=
  let tbl_off := 8 + i * 12
  (u32le data tbl_off).bind fun typ =>
    (u32le data (tbl_off + 4)).bind fun addr =>
      if typ ≠ OBJ_TYPE_GEOMETRY then some none
      else decodeLmoGeometry data hdrBytes hasM mCnt i addr

/-- Directory loop over `decodeLmoObjectNS`. -/
def lmoLoopNS (data : List Nat) (hdrBytes : Nat) (hasM : Bool) (mCnt : Nat) :
    Nat → Nat → Option (List (Nat × AnimInfo))
  | 0, _ => some []
  | fuel + 1, i =>
    if 8 + i * 12 + 12 > data.length then some []
    else
      (decodeLmoObjectNS data hdrBytes hasM mCnt i).bind fun r =>
        (lmoLoopNS data hdrBytes hasM mCnt fuel (i + 1)).map fun rest =>
          match r with
          | some x => x :: rest
          | none => rest

/-- Variant of `parse_lmo_animations` that never reads any directory entry's
`declared_size` value. -/
def parse_lmo_animationsNS (data : List Nat) : Option (List (Nat × AnimInfo)) :=
  if data.length < 8 then some []
  else
    (u32le data 0).bind fun lmo_version =>
      (u32le data 4).bind fun obj_num =>
        if lmo_version = 0 then some []
        else if 500 < obj_num then some []
        else
          lmoLoopNS data (lmoHdrBytes lmo_version) (lmoHasOpacity lmo_version)
            (lmoOpacityCount lmo_version) obj_num 0

/-! ### Concrete buffers used as witnesses and counterexamples -/

/-- Little-endian byte encoding of a u32 value. -/
def u32b (v : Nat) : List Nat :=
  [v % 256, v / 256 % 256, v / 65536 % 256, v / 16777216 % 256]

/-- Container with version 0x1004, one geometry entry at `addr = 20` whose
directory `declared_size` is 0xFFFFFFFF (so `byte_offset + declared_size`
far exceeds the 656-byte file), with a valid animation header:
`mtl = mesh = helper = 0`, `anim_size = 524 = 520 + 4`, and a single
nonzero `texuv[0][0] = 4`. -/
def lmoC4 : List Nat :=
  u32b 4100 ++ u32b 1 ++
    u32b 1 ++ u32b 20 ++ u32b 4294967295 ++
    List.replicate 100 0 ++
    u32b 0 ++ u32b 0 ++ u32b 0 ++ u32b 524 ++
    u32b 0 ++ u32b 0 ++ u32b 4 ++ List.replicate 508 0

/-- The animation info decoded from `lmoC4` (and from `lmoC9A`). -/
def lmoC4Info : AnimInfo :=
  ⟨0, 0, [], [(0, 0, 4)], []⟩

/-- Container with version 0x1004 and eight directory entries; entry 0 is a
geometry object at `addr = 0`, so its `mtl_size` field (at byte 100) aliases
directory entry 7's `declared_size` field (bytes 100–103). -/
def lmoC9A : List Nat :=
  u32b 4100 ++ u32b 8 ++
    u32b 1 ++ u32b 0 ++ u32b 0 ++
    List.replicate 84 0 ++
    u32b 0 ++ u32b 0 ++ u32b 524 ++
    u32b 0 ++ u32b 0 ++ u32b 4 ++ List.replicate 512 0

/-- Map buffer: version 600, a 2×1 section grid, two sections each holding
one placement entry with the same packed value 5 (kind 0, id 5). -/
def objEx : List Nat :=
  List.replicate 16 0 ++ u32b 600 ++ u32b 0 ++ u32b 2 ++ u32b 1 ++
    List.replicate 12 0 ++
    u32b 60 ++ u32b 1 ++ u32b 80 ++ u32b 1 ++
    ([5, 0] ++ List.replicate 18 0) ++ ([5, 0] ++ List.replicate 18 0)

/-- One 104-byte catalog record: exists flag 1, one-byte name `n`, id `oid`. -/
def sceneRec (n oid : Nat) : List Nat :=
  u32b 1 ++ u32b 0 ++ ([n] ++ List.replicate 71 0) ++ List.replicate 20 0 ++ u32b oid

/-- Catalog buffer: record width 104, two existing records with the same
`obj_id = 7` and names `"a"` (97) and `"b"` (98). -/
def sceneEx : List Nat :=
  u32b 104 ++ sceneRec 97 7 ++ sceneRec 98 7

/-- Catalog buffer with record width 1: the first record is 1 byte wide, so
the 4-byte `bExist` read overruns it and the decoder raises. -/
def sceneCrash : List Nat :=
  [1, 0, 0, 0, 0, 0, 0, 0]

/-- Container buffer with version 0 and a nonzero object count. -/
def lmoV0 : List Nat :=
  u32b 0 ++ u32b 123

/-- Container buffer with version 1 and object count 501. -/
def lmoBig : List Nat :=
  u32b 1 ++ u32b 501

/-! ### Lemmas about the checked reads -/

theorem u32le_of_le {data : List Nat} {off : Nat} (h : off + 4 ≤ data.length) :
    u32le data off = some (u32 data off) := by
  simp [u32le, h]

theorem u32le_some {data : List Nat} {off v : Nat} (h : u32le data off = some v) :
    v = u32 data off ∧ off + 4 ≤ data.length := by
  unfold u32le at h
  split at h
  · exact ⟨(Option.some_inj.mp h).symm, by assumption⟩
  · exact absurd h (by simp)

theorem i32le_of_le {data : List Nat} {off : Nat} (h : off + 4 ≤ data.length) :
    (i32le data off).isSome := by
  simp [i32le, h]

theorem i16le_of_le {data : List Nat} {off : Nat} (h : off + 2 ≤ data.length) :
    (i16le data off).isSome := by
  simp [i16le, h]

theorem readU32s_of_le {data : List Nat} {off n : Nat} (h : off + n * 4 ≤ data.length) :
    readU32s data off n = some ((List.range n).map fun k => u32 data (off + k * 4)) := by
  simp [readU32s, h]

/-! ### Lemmas about the LMO object decode -/

theorem readAnimInfo_isSome {data : List Nat} {hasM : Bool} {mCnt anim_offset : Nat}
    (h : anim_offset + 8 + (if hasM then mCnt * 4 else 0) + 512 ≤ data.length) :
    (readAnimInfo data hasM mCnt anim_offset).isSome := by
  unfold readAnimInfo
  rw [u32le_of_le (by omega), Option.some_bind, u32le_of_le (by omega), Option.some_bind]
  cases hasM with
  | false =>
    simp only [Bool.false_eq_true, if_false] at h ⊢
    rw [Option.some_bind, readU32s_of_le (by omega), Option.some_bind,
      readU32s_of_le (by omega)]
    simp
  | true =>
    simp only [if_true] at h ⊢
    rw [readU32s_of_le (by omega)]
    simp only [Option.map_some', Option.some_bind]
    rw [readU32s_of_le (by omega), Option.some_bind, readU32s_of_le (by omega)]
    simp

theorem decodeLmoGeometry_isSome {data : List Nat} {hdrBytes : Nat} {hasM : Bool}
    {mCnt i addr : Nat}
    (hs : 8 + (if hasM then mCnt * 4 else 0) + 512 ≤ hdrBytes) :
    (decodeLmoGeometry data hdrBytes hasM mCnt i addr).isSome := by
  unfold decodeLmoGeometry
  simp only []
  split
  · rfl
  rename_i h116
  rw [u32le_of_le (by omega), Option.some_bind, u32le_of_le (by omega), Option.some_bind,
    u32le_of_le (by omega), Option.some_bind, u32le_of_le (by omega), Option.some_bind]
  split
  · rfl
  split
  · rfl
  rename_i hanim hfit
  have h1 : (readAnimInfo data hasM mCnt
      (addr + 116 + u32 data (addr + 100) + u32 data (addr + 100 + 4) +
        u32 data (addr + 100 + 8))).isSome := by
    apply readAnimInfo_isSome
    omega
  obtain ⟨info, hinfo⟩ := Option.isSome_iff_exists.mp h1
  rw [hinfo, Option.some_bind]
  split
  · rfl
  split
  · rfl
  · rfl

theorem decodeLmoObject_isSome {data : List Nat} {hdrBytes : Nat} {hasM : Bool}
    {mCnt i : Nat} (h : 8 + i * 12 + 12 ≤ data.length)
    (hs : 8 + (if hasM then mCnt * 4 else 0) + 512 ≤ hdrBytes) :
    (decodeLmoObject data hdrBytes hasM mCnt i).isSome := by
  unfold decodeLmoObject
  simp only []
  rw [u32le_of_le (by omega), Option.some_bind, u32le_of_le (by omega), Option.some_bind,
    u32le_of_le (by omega), Option.some_bind]
  split
  · rfl
  · exact decodeLmoGeometry_isSome hs

theorem decodeLmoGeometry_emit {data : List Nat} {hdrBytes : Nat} {hasM : Bool}
    {mCnt i addr : Nat} {p : Nat × AnimInfo}
    (h : decodeLmoGeometry data hdrBytes hasM mCnt i addr = some (some p)) :
    p.1 = i ∧ hdrBytes + animTotal p.2 = u32 data (addr + 112) := by
  unfold decodeLmoGeometry at h
  simp only [] at h
  split at h
  · simp at h
  rw [Option.bind_eq_some] at h
  obtain ⟨mtl, hmtl, h⟩ := h
  rw [Option.bind_eq_some] at h
  obtain ⟨mesh, hmesh, h⟩ := h
  rw [Option.bind_eq_some] at h
  obtain ⟨helper, hhelp, h⟩ := h
  rw [Option.bind_eq_some] at h
  obtain ⟨anim, hanim, h⟩ := h
  split at h
  · simp at h
  split at h
  · simp at h
  rw [Option.bind_eq_some] at h
  obtain ⟨info, hinfo, h⟩ := h
  split at h
  · simp at h
  split at h
  · rename_i hneq hcond
    obtain rfl : p = (i, info) := by simpa using h.symm
    refine ⟨rfl, ?_⟩
    have hv := (u32le_some hanim).1
    have h112 : addr + 100 + 12 = addr + 112 := by omega
    rw [h112] at hv
    exact (not_ne_iff.mp hneq).trans hv
  · simp at h

theorem decodeLmoGeometry_skip {data : List Nat} {hdrBytes : Nat} {hasM : Bool}
    {mCnt i addr : Nat} (hover : addr + 116 > data.length) :
    decodeLmoGeometry data hdrBytes hasM mCnt i addr = some none := by
  unfold decodeLmoGeometry
  simp only []
  rw [if_pos hover]

theorem decodeLmoObject_emit {data : List Nat} {hdrBytes : Nat} {hasM : Bool}
    {mCnt i : Nat} {p : Nat × AnimInfo}
    (h : decodeLmoObject data hdrBytes hasM mCnt i = some (some p)) :
    p.1 = i ∧
      hdrBytes + animTotal p.2 = u32 data (u32 data (8 + i * 12 + 4) + 112) := by
  unfold decodeLmoObject at h
  simp only [] at h
  rw [Option.bind_eq_some] at h
  obtain ⟨typ, htyp, h⟩ := h
  rw [Option.bind_eq_some] at h
  obtain ⟨addr, haddr, h⟩ := h
  rw [Option.bind_eq_some] at h
  obtain ⟨sz, hsz, h⟩ := h
  split at h
  · simp at h
  have hres := decodeLmoGeometry_emit h
  rw [(u32le_some haddr).1] at hres
  exact hres

theorem decodeLmoObject_skip_preamble {data : List Nat} {hdrBytes : Nat} {hasM : Bool}
    {mCnt i : Nat} {r : Option (Nat × AnimInfo)}
    (h : decodeLmoObject data hdrBytes hasM mCnt i = some r)
    (hover : u32 data (8 + i * 12 + 4) + 116 > data.length) : r = none := by
  unfold decodeLmoObject at h
  simp only [] at h
  rw [Option.bind_eq_some] at h
  obtain ⟨typ, htyp, h⟩ := h
  rw [Option.bind_eq_some] at h
  obtain ⟨addr, haddr, h⟩ := h
  rw [Option.bind_eq_some] at h
  obtain ⟨sz, hsz, h⟩ := h
  split at h
  · exact (Option.some_inj.mp h).symm
  · rw [(u32le_some haddr).1, decodeLmoGeometry_skip hover] at h
    exact (Option.some_inj.mp h).symm

/-! ### Lemmas about the LMO directory loop -/

theorem lmoLoop_isSome {data : List Nat} {hdrBytes : Nat} {hasM : Bool} {mCnt : Nat}
    (hs : 8 + (if hasM then mCnt * 4 else 0) + 512 ≤ hdrBytes) :
    ∀ fuel i, (lmoLoop data hdrBytes hasM mCnt fuel i).isSome
  | 0, _ => rfl
  | fuel + 1, i => by
    unfold lmoLoop
    split
    · rfl
    rename_i hin
    have hdec : (decodeLmoObject data hdrBytes hasM mCnt i).isSome :=
      decodeLmoObject_isSome (by omega) hs
    obtain ⟨r, hr⟩ := Option.isSome_iff_exists.mp hdec
    obtain ⟨rest, hrest⟩ := Option.isSome_iff_exists.mp
      (lmoLoop_isSome hs fuel (i + 1))
    rw [hr, Option.some_bind, hrest, Option.map_some']
    rfl

theorem lmoLoop_mem {data : List Nat} {hdrBytes : Nat} {hasM : Bool} {mCnt : Nat} :
    ∀ {fuel i0 : Nat} {l : List (Nat × AnimInfo)},
      lmoLoop data hdrBytes hasM mCnt fuel i0 = some l →
      ∀ j info, ((j, info) ∈ l ↔
        i0 ≤ j ∧ j < i0 + fuel ∧ 8 + j * 12 + 12 ≤ data.length ∧
          decodeLmoObject data hdrBytes hasM mCnt j = some (some (j, info)))
  | 0, i0, l => by
    intro h j info
    obtain rfl : ([] : List (Nat × AnimInfo)) = l := Option.some_inj.mp h
    simp
    omega
  | fuel + 1, i0, l => by
    intro h j info
    unfold lmoLoop at h
    split at h
    · rename_i hbreak
      obtain rfl : ([] : List (Nat × AnimInfo)) = l := Option.some_inj.mp h
      simp only [List.not_mem_nil, false_iff]
      rintro ⟨h1, h2, h3, h4⟩
      omega
    rename_i hin
    rw [Option.bind_eq_some] at h
    obtain ⟨r, hr, h⟩ := h
    rw [Option.map_eq_some'] at h
    obtain ⟨rest, hrest, h⟩ := h
    have ih := lmoLoop_mem hrest j info
    cases r with
    | none =>
      obtain rfl : rest = l := h
      rw [ih]
      constructor
      · rintro ⟨h1, h2, h3, h4⟩
        exact ⟨by omega, by omega, h3, h4⟩
      · rintro ⟨h1, h2, h3, h4⟩
        rcases Nat.eq_or_lt_of_le h1 with heq | hlt
        · subst heq
          rw [h4] at hr
          simp at hr
        · exact ⟨hlt, by omega, h3, h4⟩
    | some x =>
      obtain rfl : x :: rest = l := h
      have hx := (decodeLmoObject_emit hr).1
      constructor
      · intro hmem
        rcases List.mem_cons.mp hmem with heq | hmem2
        · have hji : j = i0 := by rw [← heq] at hx; exact hx
          subst hji
          rw [← heq] at hr
          exact ⟨le_refl j, by omega, by omega, hr⟩
        · obtain ⟨ha, hb, hc, hd⟩ := ih.mp hmem2
          exact ⟨by omega, by omega, hc, hd⟩
      · rintro ⟨h1, h2, h3, h4⟩
        rcases Nat.eq_or_lt_of_le h1 with heq | hlt
        · subst heq
          rw [h4] at hr
          have hx2 : x = (i0, info) := by
            have := Option.some_inj.mp hr
            exact (Option.some_inj.mp this).symm
          rw [List.mem_cons]
          exact Or.inl hx2.symm
        · exact List.mem_cons.mpr (Or.inr (ih.mpr ⟨hlt, by omega, h3, h4⟩))

/-! ### Parse-level lemmas for the container decoder -/

theorem lmoShape_ok (v : Nat) :
    8 + (if lmoHasOpacity v then lmoOpacityCount v * 4 else 0) + 512 ≤ lmoHdrBytes v := by
  unfold lmoHasOpacity lmoOpacityCount lmoHdrBytes animEntries
  by_cases h : 4101 ≤ v <;> simp [h]

theorem parse_lmo_isSome (data : List Nat) : (parse_lmo_animations data).isSome := by
  unfold parse_lmo_animations
  split
  · rfl
  rename_i hlen
  rw [u32le_of_le (by omega), Option.some_bind, u32le_of_le (by omega), Option.some_bind]
  split
  · rfl
  split
  · rfl
  exact lmoLoop_isSome (lmoShape_ok _) _ _

theorem parse_lmo_unfold {data : List Nat} (h8 : 8 ≤ data.length)
    (hv : 0 < u32 data 0) (hn : u32 data 4 ≤ 500) :
    parse_lmo_animations data =
      lmoLoop data (lmoHdrBytes (u32 data 0)) (lmoHasOpacity (u32 data 0))
        (lmoOpacityCount (u32 data 0)) (u32 data 4) 0 := by
  unfold parse_lmo_animations
  rw [if_neg (by omega), u32le_of_le (by omega), Option.some_bind,
    u32le_of_le (by omega), Option.some_bind, if_neg (by omega), if_neg (by omega)]

theorem parse_lmo_mem {data : List Nat} {l : List (Nat × AnimInfo)}
    (h : parse_lmo_animations data = some l) (i : Nat) (info : AnimInfo) :
    (i, info) ∈ l ↔
      0 < u32 data 0 ∧ u32 data 4 ≤ 500 ∧ i < u32 data 4 ∧
        8 + i * 12 + 12 ≤ data.length ∧
        decodeLmoObject data (lmoHdrBytes (u32 data 0)) (lmoHasOpacity (u32 data 0))
          (lmoOpacityCount (u32 data 0)) i = some (some (i, info)) := by
  by_cases h8 : data.length < 8
  · unfold parse_lmo_animations at h
    rw [if_pos h8] at h
    obtain rfl : ([] : List (Nat × AnimInfo)) = l := Option.some_inj.mp h
    simp only [List.not_mem_nil, false_iff]
    rintro ⟨h1, h2, h3, h4, h5⟩
    omega
  push_neg at h8
  by_cases hv : u32 data 0 = 0
  · unfold parse_lmo_animations at h
    rw [if_neg (by omega), u32le_of_le (by omega), Option.some_bind,
      u32le_of_le (by omega), Option.some_bind, if_pos hv] at h
    obtain rfl : ([] : List (Nat × AnimInfo)) = l := Option.some_inj.mp h
    simp only [List.not_mem_nil, false_iff]
    rintro ⟨h1, h2, h3, h4, h5⟩
    omega
  by_cases hn : 500 < u32 data 4
  · unfold parse_lmo_animations at h
    rw [if_neg (by omega), u32le_of_le (by omega), Option.some_bind,
      u32le_of_le (by omega), Option.some_bind, if_neg hv, if_pos hn] at h
    obtain rfl : ([] : List (Nat × AnimInfo)) = l := Option.some_inj.mp h
    simp only [List.not_mem_nil, false_iff]
    rintro ⟨h1, h2, h3, h4, h5⟩
    omega
  · rw [parse_lmo_unfold h8 (by omega) (by omega)] at h
    rw [lmoLoop_mem h i info]
    constructor
    · rintro ⟨h1, h2, h3, h4⟩
      exact ⟨by omega, by omega, by omega, h3, h4⟩
    · rintro ⟨h1, h2, h3, h4, h5⟩
      exact ⟨by omega, by omega, h4, h5⟩

/-! ### Equivalence with the variant that skips the declared-size read -/

theorem decodeLmoObject_eq_NS {data : List Nat} {hdrBytes : Nat} {hasM : Bool}
    {mCnt i : Nat} (h : 8 + i * 12 + 12 ≤ data.length) :
    decodeLmoObject data hdrBytes hasM mCnt i =
      decodeLmoObjectNS data hdrBytes hasM mCnt i := by
  unfold decodeLmoObject decodeLmoObjectNS
  simp only [u32le_of_le (show 8 + i * 12 + 8 + 4 ≤ data.length from by omega),
    Option.some_bind]

theorem lmoLoop_eq_NS {data : List Nat} {hdrBytes : Nat} {hasM : Bool} {mCnt : Nat} :
    ∀ fuel i, lmoLoop data hdrBytes hasM mCnt fuel i =
      lmoLoopNS data hdrBytes hasM mCnt fuel i
  | 0, _ => rfl
  | fuel + 1, i => by
    unfold lmoLoop lmoLoopNS
    split
    · rfl
    rename_i hin
    rw [decodeLmoObject_eq_NS (by omega), lmoLoop_eq_NS fuel (i + 1)]

theorem parse_lmo_eq_NS (data : List Nat) :
    parse_lmo_animations data = parse_lmo_animationsNS data := by
  unfold parse_lmo_animations parse_lmo_animationsNS
  split
  · rfl
  rename_i h8
  simp only [u32le_of_le (show 0 + 4 ≤ data.length from by omega),
    u32le_of_le (show 4 + 4 ≤ data.length from by omega), Option.some_bind]
  split
  · rfl
  split
  · rfl
  exact lmoLoop_eq_NS _ _

/-! ### Lemmas about the placement-index decoder -/

theorem objSlotLoop_eq {data : List Nat} {offset : Int} :
    ∀ fuel j acc, objSlotLoop data offset fuel j acc =
      (objSlotOcc data offset fuel j).map fun l => acc ∪ l.toFinset
  | 0, j, acc => by simp [objSlotLoop, objSlotOcc]
  | fuel + 1, j, acc => by
    unfold objSlotLoop objSlotOcc
    simp only []
    split
    · simp
    cases hr : i16le data (offset + (j : Int) * 20).toNat with
    | none => simp
    | some raw =>
      simp only [Option.some_bind]
      split
      · rename_i hcond
        rw [objSlotLoop_eq fuel (j + 1) (insert (splitPackedId raw) acc)]
        cases ho : objSlotOcc data offset fuel (j + 1) with
        | none => simp
        | some l =>
          simp [hcond, List.toFinset_cons, Finset.union_insert, Finset.insert_union]
      · rename_i hcond
        rw [objSlotLoop_eq fuel (j + 1) acc]
        cases ho : objSlotOcc data offset fuel (j + 1) with
        | none => simp
        | some l => simp [hcond]

theorem objSectionLoop_eq {data : List Nat} :
    ∀ secs acc, objSectionLoop data secs acc =
      (objSectionOcc data secs).map fun l => acc ∪ l.toFinset
  | [], acc => by simp [objSectionLoop, objSectionOcc]
  | (off, cnt) :: rest, acc => by
    unfold objSectionLoop objSectionOcc
    split
    · exact objSectionLoop_eq rest acc
    rw [objSlotLoop_eq cnt.toNat 0 acc]
    cases ho1 : objSlotOcc data off cnt.toNat 0 with
    | none => simp
    | some l1 =>
      simp only [Option.map_some', Option.some_bind]
      rw [objSectionLoop_eq rest (acc ∪ l1.toFinset)]
      cases ho2 : objSectionOcc data rest with
      | none => simp
      | some l2 => simp [List.toFinset_append, Finset.union_assoc]

theorem parse_obj_eq_occ (data : List Nat) :
    parse_obj_file data = (objOccurrences data).map List.toFinset := by
  unfold parse_obj_file objOccurrences
  split
  · simp
  cases h16 : i32le data 16 with
  | none => simp
  | some version =>
    simp only [Option.some_bind]
    split
    · simp
    cases h24 : i32le data 24 with
    | none => simp
    | some scx =>
      simp only [Option.some_bind]
      cases h28 : i32le data 28 with
      | none => simp
      | some scy =>
        simp only [Option.some_bind]
        split
        · simp
        cases hs : objSections data (scx * scy).toNat 0 with
        | none => simp
        | some secs =>
          simp only [Option.some_bind]
          rw [objSectionLoop_eq secs ∅]
          cases ho : objSectionOcc data secs with
          | none => simp
          | some l => simp

theorem objSlotLoop_isSome {data : List Nat} {offset : Int} (hoff : 0 < offset) :
    ∀ fuel j acc, (objSlotLoop data offset fuel j acc).isSome
  | 0, _, _ => rfl
  | fuel + 1, j, acc => by
    unfold objSlotLoop
    simp only []
    split
    · rfl
    rename_i hb
    have hle : (offset + (j : Int) * 20).toNat + 2 ≤ data.length := by omega
    obtain ⟨raw, hraw⟩ := Option.isSome_iff_exists.mp (i16le_of_le hle)
    rw [hraw, Option.some_bind]
    split
    · exact objSlotLoop_isSome hoff fuel (j + 1) _
    · exact objSlotLoop_isSome hoff fuel (j + 1) acc

theorem objSectionLoop_isSome {data : List Nat} :
    ∀ secs acc, (objSectionLoop data secs acc).isSome
  | [], _ => rfl
  | (off, cnt) :: rest, acc => by
    unfold objSectionLoop
    split
    · exact objSectionLoop_isSome rest acc
    rename_i hcond
    push_neg at hcond
    have hslot : (objSlotLoop data off cnt.toNat 0 acc).isSome :=
      objSlotLoop_isSome (by omega) cnt.toNat 0 acc
    obtain ⟨acc2, h2⟩ := Option.isSome_iff_exists.mp hslot
    rw [h2, Option.some_bind]
    exact objSectionLoop_isSome rest acc2

theorem objSections_isSome {data : List Nat} :
    ∀ fuel s, 44 + (s + fuel) * 8 ≤ data.length → (objSections data fuel s).isSome
  | 0, s, _ => rfl
  | fuel + 1, s, h => by
    unfold objSections
    obtain ⟨off, hoff⟩ := Option.isSome_iff_exists.mp
      (i32le_of_le (show 44 + s * 8 + 4 ≤ data.length from by omega))
    obtain ⟨cnt, hcnt⟩ := Option.isSome_iff_exists.mp
      (i32le_of_le (show 44 + s * 8 + 4 + 4 ≤ data.length from by omega))
    rw [hoff, Option.some_bind, hcnt, Option.some_bind]
    have hrec : (objSections data fuel (s + 1)).isSome :=
      objSections_isSome fuel (s + 1) (by omega)
    obtain ⟨rest, hrest⟩ := Option.isSome_iff_exists.mp hrec
    rw [hrest, Option.map_some']
    rfl

theorem parse_obj_isSome (data : List Nat) : (parse_obj_file data).isSome := by
  unfold parse_obj_file
  split
  · rfl
  rename_i h44
  push_neg at h44
  have h16 : (i32le data 16).isSome := i32le_of_le (by omega)
  obtain ⟨version, hv⟩ := Option.isSome_iff_exists.mp h16
  rw [hv, Option.some_bind]
  split
  · rfl
  have h24 : (i32le data 24).isSome := i32le_of_le (by omega)
  obtain ⟨scx, hx⟩ := Option.isSome_iff_exists.mp h24
  rw [hx, Option.some_bind]
  have h28 : (i32le data 28).isSome := i32le_of_le (by omega)
  obtain ⟨scy, hy⟩ := Option.isSome_iff_exists.mp h28
  rw [hy, Option.some_bind]
  simp only []
  split
  · rfl
  rename_i hfit
  have hsec : (objSections data (scx * scy).toNat 0).isSome :=
    objSections_isSome (scx * scy).toNat 0 (by omega)
  obtain ⟨secs, hs⟩ := Option.isSome_iff_exists.mp hsec
  rw [hs, Option.some_bind]
  exact objSectionLoop_isSome secs ∅

theorem and_16383_eq_mod (v : Nat) : v &&& 16383 = v % 16384 := by
  apply Nat.eq_of_testBit_eq
  intro i
  rw [show (16383 : Nat) = 2 ^ 14 - 1 from by norm_num,
    show (16384 : Nat) = 2 ^ 14 from by norm_num,
    Nat.testBit_and, Nat.testBit_two_pow_sub_one, Nat.testBit_mod_two_pow]
  exact Bool.and_comm _ _

theorem splitPackedId_eq (raw : Int) :
    splitPackedId raw =
      ((raw % 65536).toNat / 16384, (raw % 65536).toNat % 16384) := by
  unfold splitPackedId
  simp only []
  rw [Nat.shiftRight_eq_div_pow, and_16383_eq_mod]

theorem splitPackedId_snd_le (raw : Int) : (splitPackedId raw).2 ≤ 16383 :=
  Nat.and_le_right

theorem objSlotOcc_mem {data : List Nat} {offset : Int} :
    ∀ {fuel j : Nat} {l : List (Nat × Nat)}, objSlotOcc data offset fuel j = some l →
      ∀ p ∈ l, 0 < p.2 ∧ p.2 ≤ 16383 ∧ p.1 ≤ 1
  | 0, j, l => by
    intro h
    obtain rfl : ([] : List (Nat × Nat)) = l := Option.some_inj.mp h
    simp
  | fuel + 1, j, l => by
    intro h p hp
    unfold objSlotOcc at h
    simp only [] at h
    split at h
    · obtain rfl : ([] : List (Nat × Nat)) = l := Option.some_inj.mp h
      simp at hp
    rw [Option.bind_eq_some] at h
    obtain ⟨raw, hraw, h⟩ := h
    rw [Option.map_eq_some'] at h
    obtain ⟨rest, hrest, h⟩ := h
    split at h
    · rename_i hcond
      subst h
      rcases List.mem_cons.mp hp with heq | hmem
      · subst heq
        exact ⟨hcond.1, splitPackedId_snd_le raw, hcond.2⟩
      · exact objSlotOcc_mem hrest p hmem
    · subst h
      exact objSlotOcc_mem hrest p hp

theorem objSectionOcc_mem {data : List Nat} :
    ∀ {secs : List (Int × Int)} {l : List (Nat × Nat)},
      objSectionOcc data secs = some l → ∀ p ∈ l, 0 < p.2 ∧ p.2 ≤ 16383 ∧ p.1 ≤ 1
  | [], l => by
    intro h
    obtain rfl : ([] : List (Nat × Nat)) = l := Option.some_inj.mp h
    simp
  | (off, cnt) :: rest, l => by
    intro h p hp
    unfold objSectionOcc at h
    split at h
    · exact objSectionOcc_mem h p hp
    rw [Option.bind_eq_some] at h
    obtain ⟨occ1, hocc1, h⟩ := h
    rw [Option.map_eq_some'] at h
    obtain ⟨occ2, hocc2, h⟩ := h
    subst h
    rcases List.mem_append.mp hp with hmem | hmem
    · exact objSlotOcc_mem hocc1 p hmem
    · exact objSectionOcc_mem hocc2 p hmem

theorem objOccurrences_mem {data : List Nat} {l : List (Nat × Nat)}
    (h : objOccurrences data = some l) :
    ∀ p ∈ l, 0 < p.2 ∧ p.2 ≤ 16383 ∧ p.1 ≤ 1 := by
  unfold objOccurrences at h
  split at h
  · obtain rfl : ([] : List (Nat × Nat)) = l := Option.some_inj.mp h
    simp
  rw [Option.bind_eq_some] at h
  obtain ⟨version, hver, h⟩ := h
  split at h
  · obtain rfl : ([] : List (Nat × Nat)) = l := Option.some_inj.mp h
    simp
  rw [Option.bind_eq_some] at h
  obtain ⟨scx, hscx, h⟩ := h
  rw [Option.bind_eq_some] at h
  obtain ⟨scy, hscy, h⟩ := h
  simp only [] at h
  split at h
  · obtain rfl : ([] : List (Nat × Nat)) = l := Option.some_inj.mp h
    simp
  rw [Option.bind_eq_some] at h
  obtain ⟨secs, hsecs, h⟩ := h
  exact objSectionOcc_mem h

theorem parse_obj_mem_bounds {data : List Nat} {S : Finset (Nat × Nat)}
    (h : parse_obj_file data = some S) :
    ∀ p ∈ S, 0 < p.2 ∧ p.2 ≤ 16383 ∧ p.1 ≤ 1 := by
  rw [parse_obj_eq_occ] at h
  rw [Option.map_eq_some'] at h
  obtain ⟨l, hl, h⟩ := h
  subst h
  intro p hp
  exact objOccurrences_mem hl p (List.mem_toFinset.mp hp)

/-! ### Lemmas about the catalog dict -/

theorem find?_map_insert {α : Type} (k : Nat) (v : α) :
    ∀ m : List (Nat × α), m.any (fun p => p.1 == k) = true →
      ((m.map fun p => if p.1 == k then (k, v) else p).find? fun p => p.1 == k) =
        some (k, v)
  | [], h => by simp at h
  | a :: m, h => by
    by_cases hk : a.1 = k
    · simp [hk]
    · have htail : m.any (fun p => p.1 == k) = true := by
        rw [List.any_cons] at h
        simpa [hk] using h
      have hb : (a.1 == k) = false := by simp [hk]
      rw [List.map_cons, if_neg (by simp [hk]), List.find?_cons]
      simp only [hb]
      exact find?_map_insert k v m htail

theorem find?_map_insert_ne {α : Type} {k k' : Nat} (v : α) (hne : k' ≠ k) :
    ∀ m : List (Nat × α),
      ((m.map fun p => if p.1 == k then (k, v) else p).find? fun p => p.1 == k') =
        m.find? fun p => p.1 == k'
  | [] => rfl
  | a :: m => by
    by_cases hk : a.1 = k
    · have hb1 : (k == k') = false := by simp [Ne.symm hne]
      have hb2 : (a.1 == k') = false := by simp [hk, Ne.symm hne]
      rw [List.map_cons, if_pos (by simp [hk]), List.find?_cons, List.find?_cons]
      simp only [hb1, hb2]
      exact find?_map_insert_ne v hne m
    · by_cases hk' : a.1 = k'
      · have hb : (a.1 == k') = true := by simp [hk']
        rw [List.map_cons, if_neg (by simp [hk]), List.find?_cons, List.find?_cons]
        simp only [hb]
      · have hb : (a.1 == k') = false := by simp [hk']
        rw [List.map_cons, if_neg (by simp [hk]), List.find?_cons, List.find?_cons]
        simp only [hb]
        exact find?_map_insert_ne v hne m

theorem dictGet_insert_self {α : Type} (m : List (Nat × α)) (k : Nat) (v : α) :
    dictGet (dictInsert m k v) k = some v := by
  unfold dictInsert dictGet
  split
  · rename_i hany
    rw [find?_map_insert k v m hany]
    rfl
  · rename_i hany
    rw [List.find?_append]
    have hnone : m.find? (fun p => p.1 == k) = none := by
      rw [List.find?_eq_none]
      intro p hp hpk
      exact hany (List.any_eq_true.mpr ⟨p, hp, hpk⟩)
    rw [hnone]
    simp

theorem dictGet_insert_ne {α : Type} (m : List (Nat × α)) {k k' : Nat} (v : α)
    (h : k' ≠ k) : dictGet (dictInsert m k v) k' = dictGet m k' := by
  unfold dictInsert dictGet
  split
  · rw [find?_map_insert_ne v h m]
  · rw [List.find?_append]
    have hone : List.find? (fun p => p.1 == k') [(k, v)] = none := by
      simp [Ne.symm h]
    rw [hone]
    simp

theorem dictGet_foldl {α : Type} :
    ∀ (as acc : List (Nat × α)) (k : Nat),
      dictGet (as.foldl (fun m p => dictInsert m p.1 p.2) acc) k =
        ((as.reverse.find? fun p => p.1 == k).map Prod.snd).or (dictGet acc k)
  | [], acc, k => by simp
  | a :: as, acc, k => by
    rw [List.foldl_cons, dictGet_foldl as (dictInsert acc a.1 a.2) k,
      List.reverse_cons, List.find?_append]
    by_cases hk : a.1 = k
    · cases hf : as.reverse.find? (fun p => p.1 == k) with
      | some b => simp [hf]
      | none =>
        subst hk
        rw [dictGet_insert_self]
        simp
    · cases hf : as.reverse.find? (fun p => p.1 == k) with
      | some b => simp [hf]
      | none =>
        rw [dictGet_insert_ne acc a.2 (Ne.symm hk)]
        simp [hk]

/-! ### Lemmas about the catalog decoder -/

theorem sceneLoop_eq {data : List Nat} {es : Nat} :
    ∀ fuel i acc, sceneLoop data es fuel i acc =
      (sceneAssignLoop data es fuel i).map fun as =>
        as.foldl (fun m p => dictInsert m p.1 p.2) acc
  | 0, i, acc => by simp [sceneLoop, sceneAssignLoop]
  | fuel + 1, i, acc => by
    unfold sceneLoop sceneAssignLoop
    simp only []
    split
    · simp
    cases hb : i32le ((data.drop (i * es)).take es) 0 with
    | none => simp
    | some bx =>
      simp only [Option.some_bind]
      split
      · rw [sceneLoop_eq fuel (i + 1) acc]
      cases ho : u32le ((data.drop (i * es)).take es) 100 with
      | none => simp
      | some oid =>
        simp only [Option.some_bind]
        split
        · rw [sceneLoop_eq fuel (i + 1) acc]
        · rw [sceneLoop_eq fuel (i + 1)
            (dictInsert acc oid (sceneName ((data.drop (i * es)).take es)))]
          cases ha : sceneAssignLoop data es fuel (i + 1) with
          | none => simp
          | some as => simp

theorem sceneLoop_isSome {data : List Nat} {es : Nat} (hes : 104 ≤ es) :
    ∀ fuel i acc, (sceneLoop data es fuel i acc).isSome
  | 0, _, _ => rfl
  | fuel + 1, i, acc => by
    unfold sceneLoop
    simp only []
    split
    · rfl
    rename_i hbound
    have hchunk : ((data.drop (i * es)).take es).length = es := by
      rw [List.length_take, List.length_drop]
      omega
    have hb : (i32le ((data.drop (i * es)).take es) 0).isSome :=
      i32le_of_le (by omega)
    obtain ⟨bx, hbx⟩ := Option.isSome_iff_exists.mp hb
    rw [hbx, Option.some_bind]
    split
    · exact sceneLoop_isSome hes fuel (i + 1) acc
    have ho : (u32le ((data.drop (i * es)).take es) 100).isSome := by
      rw [u32le_of_le
        (show 100 + 4 ≤ ((data.drop (i * es)).take es).length from by omega)]
      rfl
    obtain ⟨oid, hoid⟩ := Option.isSome_iff_exists.mp ho
    rw [hoid, Option.some_bind]
    split
    · exact sceneLoop_isSome hes fuel (i + 1) acc
    · exact sceneLoop_isSome hes fuel (i + 1) _

theorem parse_scene_eq (data : List Nat) :
    parse_sceneobjinfo_bin data = (sceneAssignments data).map fun as =>
      as.foldl (fun m p => dictInsert m p.1 p.2) [] := by
  unfold parse_sceneobjinfo_bin sceneAssignments
  split
  · simp
  cases h : u32le data 0 with
  | none => simp
  | some es =>
    simp only [Option.some_bind]
    split
    · simp
    exact sceneLoop_eq _ _ _

theorem parse_scene_isSome {data : List Nat}
    (h : data.length < 4 ∨ u32 data 0 = 0 ∨ 104 ≤ u32 data 0) :
    (parse_sceneobjinfo_bin data).isSome := by
  unfold parse_sceneobjinfo_bin
  split
  · rfl
  rename_i h4
  rw [u32le_of_le (by omega), Option.some_bind]
  split
  · rfl
  rename_i hz
  rcases h with h | h | h
  · omega
  · omega
  · exact sceneLoop_isSome h _ _ _

/-! ### Claim theorems -/

/-- Claim C1, counterexample.  The claim states that all three decoders never
raise on any input.  On the 8-byte catalog buffer `sceneCrash` the record
width is 1, so the first record is a 1-byte slice and the 4-byte `bExist`
read (`struct.unpack_from("<i", chunk, 0)`) overruns it: the Python decoder
raises `struct.error` (modelled as `none`) instead of returning a result. -/
theorem spec_C1_counterexample : parse_sceneobjinfo_bin sceneCrash = none := by
  decide

/-- Claim C1, amended.  The container and placement decoders return a result
on every input; the catalog decoder does so whenever the buffer is shorter
than 4 bytes, the record width is zero, or the record width is at least 104
bytes (large enough for the `bExist` read at offset 0 and the `nID` read at
offset 100).  For record widths strictly between 0 and 104 a record-relative
read can overrun the record slice and the decode errors
(`spec_C1_counterexample`). -/
theorem spec_C1_amended : ∀ data : List Nat,
    (parse_lmo_animations data).isSome = true ∧
      (parse_obj_file data).isSome = true ∧
      (data.length < 4 ∨ u32 data 0 = 0 ∨ 104 ≤ u32 data 0 →
        (parse_sceneobjinfo_bin data).isSome = true) :=
  fun data =>
    ⟨parse_lmo_isSome data, parse_obj_isSome data, fun h => parse_scene_isSome h⟩

/-- Claim C1, witness: the catalog decoder succeeds on a concrete buffer
whose record width is 104. -/
theorem spec_C1_witness : (parse_sceneobjinfo_bin sceneEx).isSome = true :=
  (spec_C1_amended sceneEx).2.2 (Or.inr (Or.inr (by decide)))

/-- Claim C2.  First part: every `(i, info)` reported by the container
decoder satisfies the exact size equation — the header table byte width plus
`bone_size + mat_size + Σ mtlopac + Σ texuv + Σ teximg` equals the
`anim_size` field read at offset 112 of the object's directory address (so
an object is reported only when the equation holds; contrapositively, an
object failing the equation contributes nothing).  Second part: decoding is
per-object — any object whose own decode emits a result is in the output,
regardless of the other objects (decoding of the remaining objects
continues after a local mismatch). -/
theorem spec_C2 :
    (∀ (data : List Nat) (l : List (Nat × AnimInfo)) (i : Nat) (info : AnimInfo),
      parse_lmo_animations data = some l → (i, info) ∈ l →
        lmoHdrBytes (u32 data 0) + animTotal info =
          u32 data (u32 data (8 + i * 12 + 4) + 112)) ∧
    (∀ (data : List Nat) (l : List (Nat × AnimInfo)) (i : Nat) (info : AnimInfo),
      parse_lmo_animations data = some l →
      0 < u32 data 0 → u32 data 4 ≤ 500 → i < u32 data 4 →
      8 + i * 12 + 12 ≤ data.length →
      decodeLmoObject data (lmoHdrBytes (u32 data 0)) (lmoHasOpacity (u32 data 0))
        (lmoOpacityCount (u32 data 0)) i = some (some (i, info)) →
      (i, info) ∈ l) := by
  constructor
  · intro data l i info h hmem
    obtain ⟨h1, h2, h3, h4, hdec⟩ := (parse_lmo_mem h i info).mp hmem
    exact (decodeLmoObject_emit hdec).2
  · intro data l i info h h1 h2 h3 h4 hdec
    exact (parse_lmo_mem h i info).mpr ⟨h1, h2, h3, h4, hdec⟩

/-- Claim C2, witness: the size equation instantiated on the concrete
container `lmoC4` (520-byte header, sizes 0+0 and one uv entry of 4,
`anim_size = 524`). -/
theorem spec_C2_witness :
    lmoHdrBytes (u32 lmoC4 0) + animTotal lmoC4Info =
      u32 lmoC4 (u32 lmoC4 (8 + 0 * 12 + 4) + 112) :=
  spec_C2.1 lmoC4 [(0, lmoC4Info)] 0 lmoC4Info (by decide) (by decide)

/-- Claim C3.  The animation header shape is selected solely by the 0x1005
threshold: any version at least 0x1005 gets 146 entries (584 bytes) with a
16-slot opacity block, any nonzero version below 0x1005 gets 130 entries
(520 bytes) with no opacity block, and the container decoder processes a
well-formed header (length at least 8, nonzero version, object count at most
500) with exactly the shape selected from its version field. -/
theorem spec_C3 :
    (∀ v : Nat, 0x1005 ≤ v →
      animEntries v = 146 ∧ lmoHdrBytes v = 584 ∧ lmoHasOpacity v = true ∧
        lmoOpacityCount v = 16) ∧
    (∀ v : Nat, 0 < v → v < 0x1005 →
      animEntries v = 130 ∧ lmoHdrBytes v = 520 ∧ lmoHasOpacity v = false ∧
        lmoOpacityCount v = 0) ∧
    (∀ data : List Nat, 8 ≤ data.length → 0 < u32 data 0 → u32 data 4 ≤ 500 →
      parse_lmo_animations data =
        lmoLoop data (lmoHdrBytes (u32 data 0)) (lmoHasOpacity (u32 data 0))
          (lmoOpacityCount (u32 data 0)) (u32 data 4) 0) := by
  refine ⟨fun v hv => ?_, fun v hv0 hv => ?_, fun data h8 hv hn => parse_lmo_unfold h8 hv hn⟩
  · have h : 4101 ≤ v := by omega
    simp [animEntries, lmoHdrBytes, lmoHasOpacity, lmoOpacityCount, h]
  · have h : ¬4101 ≤ v := by omega
    simp [animEntries, lmoHdrBytes, lmoHasOpacity, lmoOpacityCount, h]

/-- Claim C3, witness: the shape at both boundary versions 0x1004 and
0x1005, and the decoder connection on the concrete container `lmoC4`. -/
theorem spec_C3_witness :
    animEntries 0x1004 = 130 ∧ lmoOpacityCount 0x1004 = 0 ∧
      lmoHasOpacity 0x1004 = false ∧
      animEntries 0x1005 = 146 ∧ lmoOpacityCount 0x1005 = 16 ∧
      lmoHasOpacity 0x1005 = true ∧
      parse_lmo_animations lmoC4 =
        lmoLoop lmoC4 (lmoHdrBytes (u32 lmoC4 0)) (lmoHasOpacity (u32 lmoC4 0))
          (lmoOpacityCount (u32 lmoC4 0)) (u32 lmoC4 4) 0 := by
  have h4 := spec_C3.2.1 0x1004 (by decide) (by decide)
  have h5 := spec_C3.1 0x1005 (by decide)
  have hp := spec_C3.2.2 lmoC4 (by decide) (by decide) (by decide)
  exact ⟨h4.1, h4.2.2.2, h4.2.2.1, h5.1, h5.2.2.2, h5.2.2.1, hp⟩

/-- Claim C4, counterexample.  The claim states that a directory entry whose
declared byte region (`byte_offset + declared_size`) exceeds the file length
is skipped.  In `lmoC4` entry 0 declares `byte_offset = 20` (bytes 12–15)
and `declared_size = 0xFFFFFFFF` (bytes 16–19), so its declared region far
exceeds the 656-byte file — yet the entry is decoded and reported, because
the source never uses `declared_size`: only the preamble bound
`byte_offset + 116` and the header-fit bound are checked. -/
theorem spec_C4_counterexample :
    u32 lmoC4 12 + u32 lmoC4 16 > lmoC4.length ∧
      parse_lmo_animations lmoC4 = some [(0, lmoC4Info)] :=
  ⟨by decide, by decide⟩

/-- Claim C4, amended.  Membership in the container decode is per-entry:
`(i, info)` is reported iff the version is nonzero, the object count is
plausible, `i` is a directory index whose 12-byte entry fits, and the
object's own decode emits `(i, info)`; moreover an entry whose geometry
preamble region (`byte_offset + 116`) exceeds the file length is skipped
(the `declared_size` region of the original claim is never checked —
`spec_C4_counterexample`).  One entry's anomaly never aborts the others. -/
theorem spec_C4_amended :
    ∀ (data : List Nat) (l : List (Nat × AnimInfo)),
      parse_lmo_animations data = some l →
      ∀ (i : Nat) (info : AnimInfo),
        ((i, info) ∈ l ↔
          0 < u32 data 0 ∧ u32 data 4 ≤ 500 ∧ i < u32 data 4 ∧
            8 + i * 12 + 12 ≤ data.length ∧
            decodeLmoObject data (lmoHdrBytes (u32 data 0))
              (lmoHasOpacity (u32 data 0)) (lmoOpacityCount (u32 data 0)) i =
              some (some (i, info))) ∧
        (u32 data (8 + i * 12 + 4) + 116 > data.length → (i, info) ∉ l) := by
  intro data l h i info
  refine ⟨parse_lmo_mem h i info, fun hover hmem => ?_⟩
  obtain ⟨h1, h2, h3, h4, hdec⟩ := (parse_lmo_mem h i info).mp hmem
  have hnone := decodeLmoObject_skip_preamble hdec hover
  simp at hnone

/-- Claim C4, witness: the amended characterisation instantiated on the
concrete container `lmoC4` at entry 0. -/
theorem spec_C4_witness :
    ((0, lmoC4Info) ∈ [(0, lmoC4Info)] ↔
      0 < u32 lmoC4 0 ∧ u32 lmoC4 4 ≤ 500 ∧ 0 < u32 lmoC4 4 ∧
        8 + 0 * 12 + 12 ≤ lmoC4.length ∧
        decodeLmoObject lmoC4 (lmoHdrBytes (u32 lmoC4 0))
          (lmoHasOpacity (u32 lmoC4 0)) (lmoOpacityCount (u32 lmoC4 0)) 0 =
          some (some (0, lmoC4Info))) ∧
    (u32 lmoC4 (8 + 0 * 12 + 4) + 116 > lmoC4.length →
      (0, lmoC4Info) ∉ [(0, lmoC4Info)]) :=
  spec_C4_amended lmoC4 [(0, lmoC4Info)] (by decide) 0 lmoC4Info

/-- Claim C5.  For any container buffer of at least 8 bytes: a zero format
version yields an empty result (for any object count), and an object count
above 500 yields an empty result. -/
theorem spec_C5 : ∀ data : List Nat, 8 ≤ data.length →
    (u32 data 0 = 0 → parse_lmo_animations data = some []) ∧
    (500 < u32 data 4 → parse_lmo_animations data = some []) := by
  intro data h8
  constructor
  · intro hv
    unfold parse_lmo_animations
    rw [if_neg (by omega), u32le_of_le (by omega), Option.some_bind,
      u32le_of_le (by omega), Option.some_bind, if_pos hv]
  · intro hn
    unfold parse_lmo_animations
    rw [if_neg (by omega), u32le_of_le (by omega), Option.some_bind,
      u32le_of_le (by omega), Option.some_bind]
    by_cases hv0 : u32 data 0 = 0
    · rw [if_pos hv0]
    · rw [if_neg hv0, if_pos hn]

/-- Claim C5, witness: a version-0 container with nonzero object count and a
version-1 container with object count 501 both decode to the empty list. -/
theorem spec_C5_witness :
    parse_lmo_animations lmoV0 = some [] ∧
      parse_lmo_animations lmoBig = some [] :=
  ⟨(spec_C5 lmoV0 (by decide)).1 (by decide),
    (spec_C5 lmoBig (by decide)).2 (by decide)⟩

/-- Claim C6.  The packed 16-bit placement field decodes as
`kind = v >> 14` and `object_id = v & 0x3FFF` (push the signed raw value to
its unsigned 16-bit form, then divide or reduce by 2^14), so the id always
lies in [0, 16383]; and every placement kept by the decoder has a positive
id (id 0 is always excluded), id at most 16383, and kind 0 or 1. -/
theorem spec_C6 :
    (∀ raw : Int,
      splitPackedId raw =
        ((raw % 65536).toNat / 16384, (raw % 65536).toNat % 16384) ∧
      (splitPackedId raw).2 ≤ 16383) ∧
    (∀ (data : List Nat) (S : Finset (Nat × Nat)), parse_obj_file data = some S →
      ∀ p ∈ S, 0 < p.2 ∧ p.2 ≤ 16383 ∧ (p.1 = 0 ∨ p.1 = 1)) := by
  constructor
  · intro raw
    exact ⟨splitPackedId_eq raw, splitPackedId_snd_le raw⟩
  · intro data S h p hp
    obtain ⟨h1, h2, h3⟩ := parse_obj_mem_bounds h p hp
    exact ⟨h1, h2, by omega⟩

/-- Claim C6, witness: the kept placement (0, 5) of the concrete map buffer
`objEx` satisfies the bounds. -/
theorem spec_C6_witness :
    0 < ((0, 5) : Nat × Nat).2 ∧ ((0, 5) : Nat × Nat).2 ≤ 16383 ∧
      (((0, 5) : Nat × Nat).1 = 0 ∨ ((0, 5) : Nat × Nat).1 = 1) :=
  spec_C6.2 objEx {(0, 5)} (by decide) (0, 5) (by decide)

/-- Claim C7.  The placement result of a map file is exactly the set
(`Finset`) of kept placement occurrences: occurrences of the same
`(kind, id)` pair in several sections (or several slots) collapse to a
single element.  On the concrete buffer `objEx` the pair (0, 5) occurs in
two different sections, yet the decoded placement set is the singleton
`{(0, 5)}`. -/
theorem spec_C7 :
    (∀ data : List Nat,
      parse_obj_file data = (objOccurrences data).map List.toFinset) ∧
    objOccurrences objEx = some [(0, 5), (0, 5)] ∧
    parse_obj_file objEx = some {(0, 5)} :=
  ⟨parse_obj_eq_occ, by decide, by decide⟩

/-- Claim C8.  The decoded catalog is last-wins keyed accumulation: looking
up any id in the result dict returns the name of the last assignment
(included record) with that id in record order — later duplicate records
overwrite earlier ones. -/
theorem spec_C8 :
    ∀ (data : List Nat) (m as : List (Nat × List Nat)),
      parse_sceneobjinfo_bin data = some m → sceneAssignments data = some as →
      ∀ key : Nat,
        dictGet m key = (as.reverse.find? fun p => p.1 == key).map Prod.snd := by
  intro data m as hm has key
  rw [parse_scene_eq data, has, Option.map_some'] at hm
  obtain rfl : as.foldl (fun m p => dictInsert m p.1 p.2) [] = m :=
    Option.some_inj.mp hm
  rw [dictGet_foldl]
  simp [dictGet]

/-- Claim C8, witness: on the concrete catalog `sceneEx` with two records
keyed 7 (names "a" then "b"), the lookup of 7 returns the later name. -/
theorem spec_C8_witness :
    dictGet [(7, [98])] 7 =
      (([(7, [97]), (7, [98])].reverse.find? fun p => p.1 == 7).map Prod.snd) :=
  spec_C8 sceneEx [(7, [98])] [(7, [97]), (7, [98])] (by decide) (by decide) 7

/-- Claim C9, counterexample.  The claim states that two container buffers
differing only in a directory entry's `declared_size` bytes decode
identically.  `lmoC9A` has 8 directory entries, and entry 0 is a geometry
object at address 0, whose `mtl_size` field (bytes 100–103) aliases entry
7's `declared_size` field (entry 7 spans bytes 92–103, its size field bytes
100–103, and 7 < object count).  Changing byte 100 of that field from 0 to 4
shifts object 0's animation header by 4 bytes and changes the decode result
from one reported object to none. -/
theorem spec_C9_counterexample :
    parse_lmo_animations lmoC9A = some [(0, lmoC4Info)] ∧
      parse_lmo_animations (lmoC9A.set 100 4) = some [] ∧
      8 + 7 * 12 + 8 ≤ 100 ∧ 100 < 8 + 7 * 12 + 12 ∧ 7 < u32 lmoC9A 4 :=
  ⟨by decide, by decide, by decide, by decide, by decide⟩

/-- Claim C9, amended.  The `declared_size` VALUE parsed from a directory
entry never influences the decode: the decoder is extensionally equal to a
variant that never reads that field.  (The claim fails only at the byte
level, because an object's region may alias directory bytes —
`spec_C9_counterexample`.) -/
theorem spec_C9_amended : ∀ data : List Nat,
    parse_lmo_animations data = parse_lmo_animationsNS data :=
  parse_lmo_eq_NS

/-- Claim C10.  The container decoder terminates with a result (never an
exception) on every input byte sequence: every read is covered by a
preceding bounds check, the farthest size-table read ending exactly at
`anim_offset + entries * 4`. -/
theorem spec_C10 : ∀ data : List Nat,
    (parse_lmo_animations data).isSome = true :=
  parse_lmo_isSome

end Survey
